import Mathlib

/-! Verification of the kiln core against its specification.

Shallow embedding of the kiln repository (Go) in Lean 4.  The data model
and the operations are translated from the source files:

* `internal/config/config.go` — `Config`, `FileConfig`, `GetEnvFile`,
  `ResolveFileAccess`, `AddRecipient`, `Save`.
* `internal/commands/rekey.go` — `checkDuplicateRecipients`,
  `addRecipientsToConfig`, `updateFileAccess`, `hasFileAccess`, `rekeyFile`.
* `internal/commands/run.go` and `main.go` — exit-code propagation.
* the `core` package — `ParseEnv`, `FormatEnv`, `GetAllEnvVars`,
  `SaveAllEnvVars`, `GetEnvVar`, `SetEnvVar`, `ParseRecipients`,
  `AgeManager.Encrypt/Decrypt`, `WriteFile`.

Go maps are modelled as association lists with unique keys; byte slices as
`List Nat`; the filesystem as an association list from path to file
content.  The age library and the godotenv codec are external dependencies
whose internals are not in the repository; they are modelled from the
specification (each such definition says so in its doc comment).
-/

namespace Kiln

/-- Byte strings (`[]byte` in Go) as lists of naturals. -/
abbrev Bytes := List Nat

/-! ## Association lists (model of Go maps) -/

/-- Lookup in an association list (Go map read `m[k]`). -/
def alook {α β : Type} [DecidableEq α] : List (α × β) → α → Option β
  | [], _ => none
  | (k, v) :: rest, key => if key = k then some v else alook rest key

/-- Insert-or-overwrite in an association list (Go map write `m[k] = v`). -/
def aset {α β : Type} [DecidableEq α] : List (α × β) → α → β → List (α × β)
  | [], k, v => [(k, v)]
  | (k', v') :: rest, k, v =>
      if k = k' then (k, v) :: rest else (k', v') :: aset rest k v

/-! ## Config model (`internal/config/config.go`) -/

/-- Model of `FileConfig` from config.go: filename and access-control list. -/
structure FileConfig where
  filename : String
  access : List String
deriving Repr, DecidableEq

/-- Model of `Config` from config.go: recipients, groups and files, each a Go map
modelled as an association list. -/
structure Config where
  recipients : List (String × String)
  groups : List (String × List String)
  files : List (String × FileConfig)
deriving Repr, DecidableEq

/-- Model of `Config.GetEnvFile` from config.go: empty name means `default`; returns
the configured filename or an error naming the miss. -/
def Config.GetEnvFile (c : Config) (name : String) : Except String String :=
  let name := if name = "" then "default" else name
  match alook c.files name with
  | some fileConfig => .ok fileConfig.filename
  | none => .error ("file '" ++ name ++ "' not found in configuration")

/-- Model of `Config.AddRecipient` from config.go: inserts or overwrites. -/
def Config.AddRecipient (c : Config) (name publicKey : String) : Config :=
  { c with recipients := aset c.recipients name publicKey }

/-- Add a public key to the accumulated recipient set (the Go
`recipientSet[pubKey] = true`); the list is kept duplicate-free. -/
def addKey (s : List String) (k : String) : List String :=
  if k ∈ s then s else s ++ [k]

/-- Add several public keys to the accumulated recipient set. -/
def addKeys (s : List String) : List String → List String
  | [] => s
  | k :: ks => addKeys (addKey s k) ks

/-- The loop body of `Config.ResolveFileAccess` from config.go: walk the
access tokens in order; `*` adds every recipient's key and breaks; a group
token adds the keys of its declared members; a recipient token adds its
key; anything else is skipped. -/
def Config.resolveTokens (c : Config) (acc : List String) : List String → List String
  | [] => acc
  | accessor :: rest =>
      if accessor = "*" then
        addKeys acc (c.recipients.map Prod.snd)
      else
        match alook c.groups accessor with
        | some groupMembers =>
            c.resolveTokens (addKeys acc (groupMembers.filterMap (alook c.recipients))) rest
        | none =>
            match alook c.recipients accessor with
            | some pubKey => c.resolveTokens (addKey acc pubKey) rest
            | none => c.resolveTokens acc rest

/-- Model of `Config.ResolveFileAccess` from config.go: resolves the access list of
a file to the set of public keys; errors when the file is unknown or the
resulting set is empty. -/
def Config.ResolveFileAccess (c : Config) (fileName : String) : Except String (List String) :=
  match alook c.files fileName with
  | none => .error ("file '" ++ fileName ++ "' not found in configuration")
  | some fileConfig =>
      let recipients := c.resolveTokens [] fileConfig.access
      if recipients = [] then
        .error ("no valid recipients found for file '" ++ fileName ++ "'")
      else
        .ok recipients

/-! ## Rekey access update (`internal/commands/rekey.go`) -/

/-- The group-scan loop of `RekeyCmd.hasFileAccess` from rekey.go: the
first accessor that names a group makes the function return whether the
recipient is among that group's members (an early `return`, not a
`continue`), so later groups are never inspected. -/
def hasFileAccessLoop (c : Config) (name : String) : List String → Bool
  | [] => false
  | accessor :: rest =>
      match alook c.groups accessor with
      | some groupMembers => groupMembers.contains name
      | none => hasFileAccessLoop c name rest

/-- Model of `RekeyCmd.hasFileAccess` from rekey.go. -/
def hasFileAccess (c : Config) (fileConfig : FileConfig) (name : String) : Bool :=
  if fileConfig.access.contains name || fileConfig.access.contains "*" then
    true
  else
    hasFileAccessLoop c name fileConfig.access

/-- The per-recipient loop of `RekeyCmd.updateFileAccess` from rekey.go,
acting on the file's current `FileConfig`. -/
def updateFileAccessLoop (c : Config) (fileName : String) (fileConfig : FileConfig) :
    List String → Config
  | [] => c
  | name :: rest =>
      if hasFileAccess c fileConfig name then
        updateFileAccessLoop c fileName fileConfig rest
      else
        let fileConfig' := { fileConfig with access := fileConfig.access ++ [name] }
        let c' := { c with files := aset c.files fileName fileConfig' }
        updateFileAccessLoop c' fileName fileConfig' rest

/-- Model of `RekeyCmd.updateFileAccess` from rekey.go: appends each added
recipient name whose access `hasFileAccess` does not already report. -/
def updateFileAccess (c : Config) (fileName : String) (names : List String) : Config :=
  match alook c.files fileName with
  | none => c
  | some fileConfig => updateFileAccessLoop c fileName fileConfig names

/-! ## Exit-code propagation (`run.go`, `main.go`) -/

/-- Child-process failure as seen by `RunCmd.executeCommand` (run.go):
either the child exited with a status code (`exec.ExitError` carrying a
wait status) or a framework-level failure such as a spawn error. -/
inductive CmdError
  | exitStatus (code : Nat)
  | other (msg : String)
deriving Repr, DecidableEq

/-- Error value a command's `Run` returns to main.go: the dedicated
`commands.ExitError` carrying the child's code, or a wrapped error. -/
inductive RunError
  | exitError (code : Nat)
  | wrapped (msg : String)
deriving Repr, DecidableEq

/-- Model of `RunCmd.handleCommandError` from run.go lines 192-203: an
`exec.ExitError` becomes `ExitError{Code: status}`, anything else is
wrapped. -/
def handleCommandError : CmdError → RunError
  | .exitStatus code => .exitError code
  | .other msg => .wrapped ("command failed: " ++ msg)

/-- The error path of `RunCmd.executeCommand` (run.go lines 123-128). -/
def executeCommandResult : Option CmdError → Option RunError
  | none => none
  | some err => some (handleCommandError err)

/-- main.go lines 56-68: exit code 0 when the command's `Run` returned
nil, and 1 for every non-nil error; the returned error value is never
inspected for an `ExitError`. -/
def mainExitCode : Option RunError → Nat
  | none => 0
  | some _ => 1

/-- The parent kiln process's exit code for a run invocation whose child
produced the given result. -/
def parentExitCode (child : Option CmdError) : Nat :=
  mainExitCode (executeCommandResult child)

/-! ## Env text codec (`core` ParseEnv/FormatEnv)

`ParseEnv` and `FormatEnv` in the source delegate to the external
godotenv library, whose code is not part of the repository; the
line-oriented `KEY=VALUE` grammar with comments and quoted/escaped values
is modelled from §4.5 of the spec. -/

/-- The plaintext environment map `map[string][]byte`, keys as byte
strings. -/
abbrev EnvMap := List (Bytes × Bytes)

/-- First byte of a valid variable name: `[A-Za-z_]` (§3). -/
def isKeyStartByte (b : Nat) : Bool :=
  (65 ≤ b && b ≤ 90) || (97 ≤ b && b ≤ 122) || b = 95

/-- Later bytes of a valid variable name: `[A-Za-z0-9_]` (§3). -/
def isKeyByte (b : Nat) : Bool :=
  isKeyStartByte b || (48 ≤ b && b ≤ 57)

/-- A valid variable name: `^[A-Za-z_][A-Za-z0-9_]*$`, non-empty (§3). -/
def validKey (k : Bytes) : Bool :=
  match k with
  | [] => false
  | b :: bs => isKeyStartByte b && bs.all isKeyByte

/-- A valid value byte (§3): not NUL, not a C0 control byte other than
tab, newline and carriage return, and an actual byte. -/
def validValueByte (b : Nat) : Bool :=
  decide (b ≠ 0) && decide (b < 256) && (decide (32 ≤ b) || decide (b = 9) ||
    decide (b = 10) || decide (b = 13))

/-- A valid value (§3): at most 1 MiB, every byte valid. -/
def validValue (v : Bytes) : Bool :=
  decide (v.length ≤ 1048576) && v.all validValueByte

/-- Modelled from the spec: escaping of one value byte for the serialised
double-quoted form — backslash, double quote, newline and carriage return
get a backslash escape, everything else stands for itself (§4.5:
serialisation "escapes values containing whitespace, quotes, or
backslashes"). -/
def escByte (b : Nat) : Bytes :=
  if b = 92 then [92, 92]
  else if b = 34 then [92, 34]
  else if b = 10 then [92, 110]
  else if b = 13 then [92, 114]
  else [b]

/-- Modelled from the spec: escape a whole value. -/
def escBytes : Bytes → Bytes
  | [] => []
  | b :: bs => escByte b ++ escBytes bs

/-- Modelled from the spec: standard shell-style unescaping inside a
double-quoted value — a backslash makes the next byte literal, with `\n`
and `\r` denoting newline and carriage return (§4.5). -/
def unescBytes : Bytes → Bytes
  | [] => []
  | b :: bs =>
      if b = 92 then
        match bs with
        | [] => []
        | c :: rest =>
            (if c = 110 then 10 else if c = 114 then 13 else c) :: unescBytes rest
      else b :: unescBytes bs

/-- Modelled from the spec: one serialised line, `KEY="escaped value"`
(61 is `=`, 34 is `"`). -/
def fmtLine (p : Bytes × Bytes) : Bytes :=
  p.1 ++ 61 :: 34 :: (escBytes p.2 ++ [34])

/-- Model of `FormatEnv` from the core package: the empty map serialises to empty
output, otherwise one line per pair joined by newlines (the per-line form
is modelled from §4.5, see `fmtLine`). -/
def FormatEnv (vars : EnvMap) : Bytes :=
  if vars = [] then [] else List.intercalate [10] (vars.map fmtLine)

/-- Split a line at its first `=` (byte 61): the key part and the raw
value part. `none` when the line has no `=`. -/
def splitAtEq : Bytes → Option (Bytes × Bytes)
  | [] => none
  | b :: bs =>
      if b = 61 then some ([], bs)
      else
        match splitAtEq bs with
        | none => none
        | some (k, v) => some (b :: k, v)

/-- Modelled from the spec: unquote a raw value — a double-quoted value is
unescaped, a single-quoted value (byte 39) is taken verbatim, anything
else stands for itself (§4.5). -/
def unquoteVal (v : Bytes) : Bytes :=
  match v with
  | [] => []
  | b :: rest =>
      if b = 34 then
        if rest ≠ [] ∧ rest.getLast? = some 34 then unescBytes rest.dropLast else v
      else if b = 39 then
        if rest ≠ [] ∧ rest.getLast? = some 39 then rest.dropLast else v
      else v

/-- Modelled from the spec: the per-line parse loop with 1-based line
numbers — blank lines and `#` comments (byte 35) are skipped, a line
without `=` is a parse error naming the line, and each pair is inserted
into the accumulated map (§4.5). -/
def parseLines : List Bytes → Nat → EnvMap → Except String EnvMap
  | [], _, acc => .ok acc
  | line :: rest, n, acc =>
      if line = [] then parseLines rest (n + 1) acc
      else if line.head? = some 35 then parseLines rest (n + 1) acc
      else
        match splitAtEq line with
        | none => .error ("line " ++ toString n ++ ": missing separator")
        | some (k, v) => parseLines rest (n + 1) (aset acc k (unquoteVal v))

/-- Model of `ParseEnv` from the core package: split the content into lines and
parse them (grammar modelled from §4.5; empty input is the empty map). -/
def ParseEnv (data : Bytes) : Except String EnvMap :=
  parseLines (data.splitOn 10) 1 []

/-- A map satisfying the §3 invariants, with the unique-key invariant of a
Go map. -/
def ValidEnvMap (m : EnvMap) : Prop :=
  (m.map Prod.fst).Nodup ∧ ∀ p ∈ m, validKey p.1 = true ∧ validValue p.2 = true

/-! ## Filesystem and envelope -/

/-- Remove a key from an association list (`os.Remove`). -/
def aerase {α β : Type} [DecidableEq α] : List (α × β) → α → List (α × β)
  | [], _ => []
  | (k', v') :: rest, k => if k = k' then rest else (k', v') :: aerase rest k

/-- On-disk file content: an age blob carrying its recipient stanzas and
the plaintext it protects (modelled from §4.4: the blob's own header
decides decryptability), arbitrary non-age bytes, or a marshalled config
(TOML marshalling is an external library; the stored blob keeps the
config value). -/
inductive Blob
  | cipher (recipients : List String) (data : Bytes)
  | plain (data : Bytes)
  | configData (c : Config)
deriving Repr, DecidableEq

/-- The filesystem: an association list from path to file content. -/
abbrev Fs := List (String × Blob)

/-- Model of `FileExists` from internal/core/utils.go. -/
def FileExists (fs : Fs) (filename : String) : Bool :=
  (alook fs filename).isSome

/-- Model of `ReadFile` from internal/core/utils.go. -/
def ReadFile (fs : Fs) (filename : String) : Except String Blob :=
  match alook fs filename with
  | some blob => .ok blob
  | none => .error ("read " ++ filename)

/-- Which of the underlying filesystem calls succeed during a write, and
the random part of the tempfile name `os.CreateTemp` picks. -/
structure FsOracle where
  mkdirOk : Bool
  createOk : Bool
  tempSuffix : String
  chmodOk : Bool
  writeOk : Bool
  closeOk : Bool
  renameOk : Bool
  saveOk : Bool
deriving Repr, DecidableEq

/-- Model of `WriteFile` from internal/core/utils.go: create a sibling tempfile in
the same directory, chmod 0600, write, close, then rename into place; on
any failure before the rename the deferred cleanup removes the tempfile
and the target is untouched.  Permission bits are not modelled. -/
def WriteFile (o : FsOracle) (filename : String) (data : Blob) (fs : Fs) :
    Except String Unit × Fs :=
  if ¬ o.mkdirOk then (.error "mkdir", fs)
  else if ¬ o.createOk then (.error "create temp", fs)
  else
    let tempName := filename ++ ".tmp." ++ o.tempSuffix
    let fs1 := aset fs tempName (.plain [])
    if ¬ o.chmodOk then (.error "chmod", aerase fs1 tempName)
    else if ¬ o.writeOk then (.error "write", aerase fs1 tempName)
    else
      let fs2 := aset fs1 tempName data
      if ¬ o.closeOk then (.error "close", aerase fs2 tempName)
      else if ¬ o.renameOk then (.error "rename", aerase fs2 tempName)
      else (.ok (), aset (aerase fs2 tempName) filename data)

/-- Model of `Config.Save` from config.go: `os.MkdirAll` then a direct
`os.WriteFile` of the marshalled TOML (not the atomic tempfile path). -/
def Config.Save (o : FsOracle) (c : Config) (path : String) (fs : Fs) :
    Except String Unit × Fs :=
  if ¬ o.mkdirOk then (.error "mkdir", fs)
  else if ¬ o.saveOk then (.error "write config", fs)
  else (.ok (), aset fs path (.configData c))

/-- An identity as the store sees it: the live decryption capability for
one public key (key material and lazy passphrase handling play no role in
the claims below). -/
structure Identity where
  publicKey : String
deriving Repr, DecidableEq

/-- Model of `AgeManager` from the core package: pre-parsed recipients and
identities, both reduced to their public-key strings. -/
structure AgeManager where
  recipients : List String
  identities : List String
deriving Repr, DecidableEq

/-- Model of `AgeManager.Encrypt` from the core package: fails on an empty
recipient list or empty data; otherwise produces an age blob carrying the
recipient stanzas (the age library itself is modelled from §4.4). -/
def AgeManager.Encrypt (am : AgeManager) (data : Bytes) : Except String Blob :=
  if am.recipients = [] then .error "no recipients configured"
  else if data = [] then .error "no data to encrypt"
  else .ok (.cipher am.recipients data)

/-- Model of `AgeManager.Decrypt` from the core package: fails on an empty
identity list or when no identity can unwrap a stanza; on success returns
the plaintext (the age library is modelled from §4.4: an identity whose
public key is among the blob's recipient stanzas unwraps it). -/
def AgeManager.Decrypt (am : AgeManager) (blob : Blob) : Except String Bytes :=
  if am.identities = [] then .error "no identities configured"
  else
    match blob with
    | .cipher recips plaintext =>
        if am.identities.any (fun i => recips.contains i) then .ok plaintext
        else .error "decrypt: no identity matched"
    | _ => .error "decrypt: not an age blob"

/-- Model of Go `strings.TrimSpace` over ASCII whitespace. -/
def trimStr (s : String) : String :=
  String.mk (((s.data.dropWhile Char.isWhitespace).reverse.dropWhile
    Char.isWhitespace).reverse)

/-- The per-key loop of `ParseRecipients` from the core package: empty
and whitespace-only keys are skipped, the rest is handed to the age/ssh
key parsers (abstracted as the `parseOk` oracle) and any parse failure
aborts. -/
def parseRecipientsLoop (parseOk : String → Bool) : List String → Except String (List String)
  | [] => .ok []
  | key :: rest =>
      if key = "" then parseRecipientsLoop parseOk rest
      else
        let key' := trimStr key
        if key' = "" then parseRecipientsLoop parseOk rest
        else if parseOk key' then
          match parseRecipientsLoop parseOk rest with
          | .ok recips => .ok (key' :: recips)
          | .error e => .error e
        else .error ("failed to parse key " ++ key')

/-- Model of `ParseRecipients` from the core package: errors on an empty input
list, on any unparsable key, and when no valid key remains. -/
def ParseRecipients (parseOk : String → Bool) (publicKeys : List String) :
    Except String (List String) :=
  if publicKeys = [] then .error "no public keys provided"
  else
    match parseRecipientsLoop parseOk publicKeys with
    | .error e => .error e
    | .ok recipients =>
        if recipients = [] then .error "no valid public keys found"
        else .ok recipients

/-! ## Store (core env-var operations) -/

/-- The error kinds of internal/errors used by the store. -/
inductive KErr
  | config (msg : String)
  | security (msg : String)
  | validation (msg : String)
  | fileAccess (msg : String)
  | plain (msg : String)
deriving Repr, DecidableEq

/-- The cleanup closure returned with a decrypted map: either the no-op
returned for a missing file or the closure wiping the plaintext and every
value. -/
inductive Cleanup
  | noop
  | wipe (plaintext : Bytes) (vars : EnvMap)
deriving Repr, DecidableEq

/-- Model of `GetAllEnvVars` from the core package: resolve the path, treat a
missing file as the empty map with a no-op cleanup, resolve and parse the
recipients, read and decrypt the file, parse the plaintext. -/
def GetAllEnvVars (parseOk : String → Bool) (identity : Identity) (cfg : Config)
    (fileName : String) (fs : Fs) : Except KErr (EnvMap × Cleanup) :=
  match cfg.GetEnvFile fileName with
  | .error _ => .error (.config ("file '" ++ fileName ++ "' not configured"))
  | .ok filePath =>
      if ¬ FileExists fs filePath then .ok ([], .noop)
      else
        match cfg.ResolveFileAccess fileName with
        | .error _ => .error (.security ("access denied for '" ++ fileName ++ "'"))
        | .ok recipientKeys =>
            match ParseRecipients parseOk recipientKeys with
            | .error _ => .error (.config ("invalid recipients for '" ++ fileName ++ "'"))
            | .ok recipients =>
                let crypto := AgeManager.mk recipients [identity.publicKey]
                match ReadFile fs filePath with
                | .error _ => .error (.fileAccess ("read " ++ fileName))
                | .ok encryptedData =>
                    match crypto.Decrypt encryptedData with
                    | .error _ => .error (.security ("cannot decrypt '" ++ fileName ++ "'"))
                    | .ok plaintext =>
                        match ParseEnv plaintext with
                        | .error _ =>
                            .error (.validation ("file '" ++ fileName ++ "' contains invalid format"))
                        | .ok vars => .ok (vars, .wipe plaintext vars)

/-- Model of `SaveAllEnvVars` from the core package: resolve the path and the
recipients, serialise, encrypt, and write atomically via `WriteFile`. -/
def SaveAllEnvVars (parseOk : String → Bool) (o : FsOracle) (identity : Identity)
    (cfg : Config) (fileName : String) (vars : EnvMap) (fs : Fs) :
    Except KErr Unit × Fs :=
  match cfg.GetEnvFile fileName with
  | .error _ => (.error (.plain ("file '" ++ fileName ++ "' not configured")), fs)
  | .ok filePath =>
      match cfg.ResolveFileAccess fileName with
      | .error _ => (.error (.plain ("access error for '" ++ fileName ++ "'")), fs)
      | .ok recipientKeys =>
          match ParseRecipients parseOk recipientKeys with
          | .error _ => (.error (.plain ("invalid recipients for '" ++ fileName ++ "'")), fs)
          | .ok recipients =>
              let crypto := AgeManager.mk recipients [identity.publicKey]
              let content := FormatEnv vars
              match crypto.Encrypt content with
              | .error _ => (.error (.plain ("cannot encrypt '" ++ fileName ++ "'")), fs)
              | .ok encryptedData =>
                  match WriteFile o filePath encryptedData fs with
                  | (.ok _, fs') => (.ok (), fs')
                  | (.error e, fs') => (.error (.plain e), fs')

/-- Model of `GetEnvVar` from the core package; the Go value copy and the cleanup
closures only affect memory zeroisation, not the returned bytes. -/
def GetEnvVar (parseOk : String → Bool) (identity : Identity) (cfg : Config)
    (fileName : String) (key : Bytes) (fs : Fs) : Except KErr Bytes :=
  match GetAllEnvVars parseOk identity cfg fileName fs with
  | .error e => .error e
  | .ok (vars, _cleanup) =>
      match alook vars key with
      | none =>
          .error (.plain ("variable " ++ toString key ++ " not found in '" ++ fileName ++ "'"))
      | some value => .ok value

/-- Model of `SetEnvVar` from the core package: load the current map (a missing
file reads as empty), insert the key, save everything. -/
def SetEnvVar (parseOk : String → Bool) (o : FsOracle) (identity : Identity)
    (cfg : Config) (fileName : String) (key value : Bytes) (fs : Fs) :
    Except KErr Unit × Fs :=
  match GetAllEnvVars parseOk identity cfg fileName fs with
  | .error e => (.error e, fs)
  | .ok (vars, _cleanup) =>
      SaveAllEnvVars parseOk o identity cfg fileName (aset vars key value) fs

/-! ## Rekey command flow (`internal/commands/rekey.go`) -/

/-- Model of `RekeyCmd.checkDuplicateRecipients` from rekey.go: a re-registration
with a different key fails; an identical one is a no-op. -/
def checkDuplicateRecipients (cfg : Config) : List (String × String) → Except KErr Unit
  | [] => .ok ()
  | (name, newKey) :: rest =>
      match alook cfg.recipients name with
      | some existingKey =>
          if existingKey ≠ newKey then
            .error (.config ("recipient '" ++ name ++ "' already exists with different key"))
          else checkDuplicateRecipients cfg rest
      | none => checkDuplicateRecipients cfg rest

/-- Model of `RekeyCmd.addRecipientsToConfig` from rekey.go. -/
def addRecipientsToConfig (cfg : Config) : List (String × String) → Config
  | [] => cfg
  | (name, publicKey) :: rest =>
      addRecipientsToConfig (cfg.AddRecipient name publicKey) rest

/-- Model of `RekeyCmd.rekeyFile` from rekey.go: when the ciphertext does not
exist, log and return success without any write; otherwise decrypt the
current file, save the config, then re-encrypt and save the environment
file. -/
def rekeyFile (parseOk : String → Bool) (o : FsOracle) (identity : Identity)
    (cfg : Config) (configPath fileName : String) (fs : Fs) : Except KErr Unit × Fs :=
  match cfg.GetEnvFile fileName with
  | .error _ => (.error (.config ("file '" ++ fileName ++ "' not found")), fs)
  | .ok filePath =>
      if ¬ FileExists fs filePath then (.ok (), fs)
      else
        match GetAllEnvVars parseOk identity cfg fileName fs with
        | .error e => (.error e, fs)
        | .ok (envVars, _cleanup) =>
            match Config.Save o cfg configPath fs with
            | (.error e, fs1) => (.error (.plain e), fs1)
            | (.ok _, fs1) => SaveAllEnvVars parseOk o identity cfg fileName envVars fs1

/-- Model of `RekeyCmd.Run` from rekey.go after CLI validation: duplicate check,
insert the new recipients, update the file's access list, then
`rekeyFile`. -/
def RekeyRun (parseOk : String → Bool) (o : FsOracle) (identity : Identity)
    (cfg : Config) (configPath fileName : String)
    (addRecipient : List (String × String)) (fs : Fs) : Except KErr Unit × Fs :=
  match checkDuplicateRecipients cfg addRecipient with
  | .error e => (.error e, fs)
  | .ok _ =>
      let cfg1 := addRecipientsToConfig cfg addRecipient
      let cfg2 := updateFileAccess cfg1 fileName (addRecipient.map Prod.fst)
      rekeyFile parseOk o identity cfg2 configPath fileName fs

/-! ## Concrete inputs used by witnesses and counterexamples -/

/-- Concrete config exercising the wildcard resolution. -/
def cfgW7 : Config :=
  ⟨[("alice", "KA"), ("bob", "KB")], [],
   [("prod", ⟨"prod.env", ["alice", "*", "carol"]⟩)]⟩

/-- Concrete config for the rekey access-update claim: two groups, the
added recipient is a member of the second one only. -/
def cfgW3 : Config :=
  ⟨[("alice", "KA"), ("xavier", "KX")],
   [("g1", ["xavier"]), ("g2", ["alice"])],
   [("prod", ⟨"prod.env", ["g1", "g2"]⟩)]⟩

/-- A concrete valid environment map whose first value contains a space,
a double quote, a backslash and a newline. -/
def envW6 : EnvMap :=
  [([65], [32, 34, 92, 10]), ([66, 95, 50], [])]

/-- The key-parse oracle that accepts every key. -/
def parseOkAll : String → Bool := fun _ => true

/-- The oracle under which every filesystem call succeeds. -/
def oracleOK : FsOracle := ⟨true, true, "t1", true, true, true, true, true⟩

/-- The oracle under which only the final rename fails. -/
def oracleRenameFail : FsOracle := ⟨true, true, "t1", true, true, true, false, true⟩

/-- Alice's identity. -/
def idA : Identity := ⟨"KA"⟩

/-- Config with one recipient alice and one default file. -/
def cfgC1 : Config := ⟨[("alice", "KA")], [], [("default", ⟨"env.enc", ["alice"]⟩)]⟩

/-- The config `cfgC1` after a rekey adds bob. -/
def cfgC1' : Config :=
  ⟨[("alice", "KA"), ("bob", "KB")], [], [("default", ⟨"env.enc", ["alice", "bob"]⟩)]⟩

/-- A one-variable environment map, `A=1`. -/
def envOne : EnvMap := [([65], [49])]

/-- Its serialisation. -/
def ptC1 : Bytes := FormatEnv envOne

/-- Filesystem before the C1 rekey: the old config and a ciphertext
readable by alice only. -/
def fsC1 : Fs := [("kiln.toml", .configData cfgC1), ("env.enc", .cipher ["KA"] ptC1)]

/-- The intermediate filesystem state after the config save inside
`rekeyFile` and before the ciphertext write. -/
def fsC1mid : Fs := aset fsC1 "kiln.toml" (.configData cfgC1')

/-- Filesystem before the C4 rekey: the config exists, the ciphertext
does not. -/
def fsC4 : Fs := [("kiln.toml", .configData cfgC1)]

/-! ## Theorems -/

/-! ## Association-list lemmas -/

theorem alook_aset {α β : Type} [DecidableEq α] (m : List (α × β)) (k : α) (v : β) :
    alook (aset m k v) k = some v := by
  induction m with
  | nil => simp [aset, alook]
  | cons p rest ih =>
      obtain ⟨k', v'⟩ := p
      by_cases h : k = k' <;> simp [aset, alook, h, ih]

theorem alook_aset_ne {α β : Type} [DecidableEq α] (m : List (α × β)) (k k' : α) (v : β)
    (h : k' ≠ k) : alook (aset m k v) k' = alook m k' := by
  induction m with
  | nil => simp [aset, alook, h]
  | cons p rest ih =>
      obtain ⟨k₀, v₀⟩ := p
      by_cases hk : k = k₀
      · subst hk; simp [aset, alook, h]
      · by_cases hk' : k' = k₀ <;> simp [aset, alook, hk, hk', ih]

/-- When the key is absent, `aset` appends the new pair at the end. -/
theorem aset_eq_append {α β : Type} [DecidableEq α] (m : List (α × β)) (k : α) (v : β)
    (h : alook m k = none) : aset m k v = m ++ [(k, v)] := by
  induction m with
  | nil => simp [aset]
  | cons p rest ih =>
      obtain ⟨k', v'⟩ := p
      by_cases hk : k = k'
      · simp [alook, hk] at h
      · simp [alook, hk] at h
        simp [aset, hk, ih h]

theorem alook_mem {α β : Type} [DecidableEq α] {m : List (α × β)} {k : α} {v : β}
    (h : alook m k = some v) : (k, v) ∈ m := by
  induction m with
  | nil => simp [alook] at h
  | cons p rest ih =>
      obtain ⟨k', v'⟩ := p
      by_cases hk : k = k'
      · subst hk
        simp [alook] at h
        simp [h]
      · simp [alook, hk] at h
        exact List.mem_cons_of_mem _ (ih h)

theorem alook_eq_none {α β : Type} [DecidableEq α] {m : List (α × β)} {k : α}
    (h : k ∉ m.map Prod.fst) : alook m k = none := by
  induction m with
  | nil => rfl
  | cons p rest ih =>
      obtain ⟨k', v'⟩ := p
      simp only [List.map_cons, List.mem_cons] at h
      push_neg at h
      simp [alook, h.1, ih h.2]

/-! ## Access-resolution lemmas and C7 -/

theorem mem_addKey {s : List String} {k a : String} :
    a ∈ addKey s k ↔ a ∈ s ∨ a = k := by
  unfold addKey
  by_cases h : k ∈ s
  · simp only [if_pos h]
    constructor
    · exact Or.inl
    · rintro (ha | rfl) <;> [exact ha; exact h]
  · simp [if_neg h]

theorem mem_addKeys {ks : List String} :
    ∀ {s : List String} {a : String}, a ∈ addKeys s ks ↔ a ∈ s ∨ a ∈ ks := by
  induction ks with
  | nil => simp [addKeys]
  | cons k rest ih =>
      intro s a
      simp only [addKeys, ih, mem_addKey, List.mem_cons]
      tauto

theorem addKeys_toFinset (s : List String) (ks : List String) :
    (addKeys s ks).toFinset = s.toFinset ∪ ks.toFinset := by
  ext a
  simp [List.mem_toFinset, mem_addKeys]

/-- The walk only ever accumulates public keys that are values of the
recipient map, so once a wildcard token is reached the accumulated set is
exactly the set of all recipient public keys. -/
theorem resolveTokens_wildcard (c : Config) :
    ∀ (toks : List String) (acc : List String),
      (∀ k ∈ acc, k ∈ c.recipients.map Prod.snd) → "*" ∈ toks →
      (c.resolveTokens acc toks).toFinset = (c.recipients.map Prod.snd).toFinset := by
  intro toks
  induction toks with
  | nil => intro acc _ hw; simp at hw
  | cons accessor rest ih =>
      intro acc hacc hw
      by_cases hstar : accessor = "*"
      · subst hstar
        show (addKeys acc (c.recipients.map Prod.snd)).toFinset = _
        rw [addKeys_toFinset]
        apply Finset.union_eq_right.mpr
        intro a ha
        simp only [List.mem_toFinset] at ha ⊢
        exact hacc a ha
      · have hw' : "*" ∈ rest := by
          rcases List.mem_cons.mp hw with h | h
          · exact absurd h.symm hstar
          · exact h
        show (Config.resolveTokens c acc (accessor :: rest)).toFinset = _
        unfold Config.resolveTokens
        rw [if_neg hstar]
        cases hg : alook c.groups accessor with
        | some groupMembers =>
            apply ih
            · intro k hk
              rcases mem_addKeys.mp hk with h | h
              · exact hacc k h
              · obtain ⟨m, _, hm⟩ := List.mem_filterMap.mp h
                exact List.mem_map.mpr ⟨(m, k), alook_mem hm, rfl⟩
            · exact hw'
        | none =>
            cases hr : alook c.recipients accessor with
            | some pubKey =>
                apply ih
                · intro k hk
                  rcases mem_addKey.mp hk with h | rfl
                  · exact hacc k h
                  · exact List.mem_map.mpr ⟨(accessor, k), alook_mem hr, rfl⟩
                · exact hw'
            | none => exact ih acc hacc hw'

/-- C7: for every config and logical file name whose access list contains
`*`, `ResolveFileAccess` returns exactly the set of all public-key values
in the recipients map, and it errors exactly when that map is empty. -/
theorem resolveFileAccess_wildcard (c : Config) (l : String) (fc : FileConfig)
    (hf : alook c.files l = some fc) (hw : "*" ∈ fc.access) :
    (∀ ks, c.ResolveFileAccess l = .ok ks →
        ks.toFinset = (c.recipients.map Prod.snd).toFinset) ∧
    ((∃ e, c.ResolveFileAccess l = .error e) ↔ c.recipients = []) := by
  have hres : (c.resolveTokens [] fc.access).toFinset
      = (c.recipients.map Prod.snd).toFinset :=
    resolveTokens_wildcard c fc.access [] (by simp) hw
  unfold Config.ResolveFileAccess
  rw [hf]
  by_cases hempty : c.resolveTokens [] fc.access = []
  · simp only [hempty, if_pos rfl]
    constructor
    · intro ks hks; cases hks
    · constructor
      · intro _
        have : (c.recipients.map Prod.snd).toFinset = ∅ := by
          rw [← hres, hempty]; rfl
        have hmapnil : c.recipients.map Prod.snd = [] :=
          List.toFinset_eq_empty_iff _ |>.mp this
        exact List.map_eq_nil_iff.mp hmapnil
      · intro _; exact ⟨_, rfl⟩
  · simp only [if_neg hempty]
    constructor
    · intro ks hks
      cases hks
      exact hres
    · constructor
      · rintro ⟨e, he⟩; cases he
      · intro hrec
        exfalso
        apply hempty
        have : (c.resolveTokens [] fc.access).toFinset = ∅ := by
          rw [hres, hrec]; rfl
        exact List.toFinset_eq_empty_iff _ |>.mp this

/-- Witness for C7 at a concrete config: the access list
`["alice", "*", "carol"]` resolves to both recipients' keys and does not
error. -/
theorem resolveFileAccess_wildcard_witness :
    alook cfgW7.files "prod" = some ⟨"prod.env", ["alice", "*", "carol"]⟩ ∧
    ("*" ∈ ["alice", "*", "carol"]) ∧
    ((∀ ks, cfgW7.ResolveFileAccess "prod" = .ok ks →
        ks.toFinset = (cfgW7.recipients.map Prod.snd).toFinset) ∧
      ((∃ e, cfgW7.ResolveFileAccess "prod" = .error e) ↔ cfgW7.recipients = [])) :=
  ⟨by decide, by decide,
    resolveFileAccess_wildcard cfgW7 "prod" ⟨"prod.env", ["alice", "*", "carol"]⟩
      (by decide) (by decide)⟩

/-! ## C2: exit-code propagation -/

/-- C2 counterexample: a child exiting with code 42 makes the parent exit
with code 1, not 42 — `handleCommandError` builds an `ExitError{Code: 42}`
but main.go maps every non-nil error to exit code 1. -/
theorem parentExitCode_not_propagated :
    parentExitCode (some (CmdError.exitStatus 42)) = 1 ∧
    parentExitCode (some (CmdError.exitStatus 42)) ≠ 42 ∧
    parentExitCode none = 0 := by decide

/-! ## C3: rekey access update -/

/-- C3 counterexample: `hasFileAccess` returns early on the first group
token, so a recipient that is a member only of the second listed group is
reported as lacking access and `updateFileAccess` appends its name. -/
theorem updateFileAccess_second_group_bug :
    alook cfgW3.groups "g2" = some ["alice"] ∧
    "g2" ∈ ["g1", "g2"] ∧
    hasFileAccess cfgW3 ⟨"prod.env", ["g1", "g2"]⟩ "alice" = false ∧
    updateFileAccess cfgW3 "prod" ["alice"] =
      { cfgW3 with files := [("prod", ⟨"prod.env", ["g1", "g2", "alice"]⟩)] } := by
  decide

/-! ## Codec lemmas and C6 -/

theorem isKeyByte_facts {b : Nat} (h : isKeyByte b = true) :
    b ≠ 61 ∧ b ≠ 10 ∧ b ≠ 35 := by
  simp only [isKeyByte, isKeyStartByte, Bool.or_eq_true, Bool.and_eq_true,
    decide_eq_true_eq] at h
  omega

theorem isKeyStart_isKeyByte {b : Nat} (h : isKeyStartByte b = true) :
    isKeyByte b = true := by
  simp [isKeyByte, h]

theorem validKey_all {k : Bytes} (h : validKey k = true) :
    k ≠ [] ∧ ∀ b ∈ k, isKeyByte b = true := by
  match k with
  | [] => simp [validKey] at h
  | b :: bs =>
    simp only [validKey, Bool.and_eq_true, List.all_eq_true] at h
    refine ⟨by simp, ?_⟩
    intro x hx
    rcases List.mem_cons.mp hx with rfl | hx
    · exact isKeyStart_isKeyByte h.1
    · exact h.2 x hx

theorem escByte_no_newline (b : Nat) : 10 ∉ escByte b := by
  unfold escByte
  split_ifs with h1 h2 h3 h4 <;> simp_all
  omega

theorem escBytes_no_newline (v : Bytes) : 10 ∉ escBytes v := by
  induction v with
  | nil => simp [escBytes]
  | cons b bs ih =>
      simp only [escBytes, List.mem_append]
      rintro (h | h)
      · exact escByte_no_newline b h
      · exact ih h

theorem unescBytes_cons_ne (b : Nat) (bs : Bytes) (h : ¬ b = 92) :
    unescBytes (b :: bs) = b :: unescBytes bs := by
  conv_lhs => unfold unescBytes
  simp [h]

theorem unescBytes_pair (c : Nat) (bs : Bytes) :
    unescBytes (92 :: c :: bs) =
      (if c = 110 then 10 else if c = 114 then 13 else c) :: unescBytes bs := by
  conv_lhs => unfold unescBytes
  simp

theorem unesc_esc (v : Bytes) : unescBytes (escBytes v) = v := by
  induction v with
  | nil => rfl
  | cons b bs ih =>
      show unescBytes (escByte b ++ escBytes bs) = b :: bs
      unfold escByte
      split_ifs with h1 h2 h3 h4
      · subst h1; simp [unescBytes_pair, ih]
      · subst h2; simp [unescBytes_pair, ih]
      · subst h3; simp [unescBytes_pair, ih]
      · subst h4; simp [unescBytes_pair, ih]
      · simp [unescBytes_cons_ne b _ h1, ih]

theorem splitAtEq_append (k rest : Bytes) (hk : ∀ b ∈ k, b ≠ 61) :
    splitAtEq (k ++ 61 :: rest) = some (k, rest) := by
  induction k with
  | nil => simp [splitAtEq]
  | cons b bs ih =>
      have hb : b ≠ 61 := hk b (List.mem_cons_self _ _)
      simp only [List.cons_append, splitAtEq, if_neg hb, List.append_eq]
      rw [ih (fun x hx => hk x (List.mem_cons_of_mem _ hx))]

theorem unquoteVal_fmt (v : Bytes) : unquoteVal (34 :: (escBytes v ++ [34])) = v := by
  have hne : escBytes v ++ [34] ≠ [] := by simp
  have hlast : (escBytes v ++ [34]).getLast? = some 34 := List.getLast?_concat _
  simp [unquoteVal, hne, hlast, List.dropLast_concat, unesc_esc]

theorem fmtLine_ne_nil (p : Bytes × Bytes) : fmtLine p ≠ [] := by
  simp [fmtLine]

theorem fmtLine_head_ne_comment {p : Bytes × Bytes} (hp : validKey p.1 = true) :
    (fmtLine p).head? ≠ some 35 := by
  obtain ⟨k, v⟩ := p
  match k, hp with
  | b :: bs, hp =>
      simp only [validKey, Bool.and_eq_true] at hp
      have hb := isKeyByte_facts (isKeyStart_isKeyByte hp.1)
      simp [fmtLine, hb.2.2]

theorem fmtLine_no_newline {p : Bytes × Bytes} (hp : validKey p.1 = true) :
    10 ∉ fmtLine p := by
  obtain ⟨hkne, hkbytes⟩ := validKey_all hp
  intro h
  simp only [fmtLine, List.mem_append, List.mem_cons, List.mem_singleton] at h
  rcases h with h | h
  · exact (isKeyByte_facts (hkbytes 10 h)).2.1 rfl
  · rcases h with h | h
    · exact absurd h (by decide)
    · rcases h with h | h
      · exact absurd h (by decide)
      · rcases h with h | h
        · exact escBytes_no_newline p.2 h
        · exact absurd h (by decide)

theorem splitAtEq_fmtLine {p : Bytes × Bytes} (hp : validKey p.1 = true) :
    splitAtEq (fmtLine p) = some (p.1, 34 :: (escBytes p.2 ++ [34])) := by
  obtain ⟨_, hkbytes⟩ := validKey_all hp
  exact splitAtEq_append p.1 _ (fun b hb => (isKeyByte_facts (hkbytes b hb)).1)

theorem parseLines_fmt (m : EnvMap) :
    ∀ (acc : EnvMap) (n : Nat),
      (acc.map Prod.fst ++ m.map Prod.fst).Nodup →
      (∀ p ∈ m, validKey p.1 = true) →
      parseLines (m.map fmtLine) n acc = .ok (acc ++ m) := by
  induction m with
  | nil => intro acc n _ _; simp [parseLines]
  | cons p m' ih =>
      intro acc n hnd hvk
      obtain ⟨k, v⟩ := p
      have hk : validKey k = true := hvk (k, v) (List.mem_cons_self _ _)
      have hline_ne : ¬ (fmtLine (k, v) = []) := fmtLine_ne_nil (k, v)
      have hhead : ¬ ((fmtLine (k, v)).head? = some 35) := fmtLine_head_ne_comment hk
      have hsplit : splitAtEq (fmtLine (k, v)) = some (k, 34 :: (escBytes v ++ [34])) :=
        splitAtEq_fmtLine hk
      have hknotin : k ∉ acc.map Prod.fst := by
        intro hmem
        exact (List.disjoint_of_nodup_append hnd) hmem (List.mem_cons_self _ _)
      have haset : aset acc k (unquoteVal (34 :: (escBytes v ++ [34]))) = acc ++ [(k, v)] := by
        rw [unquoteVal_fmt, aset_eq_append _ _ _ (alook_eq_none hknotin)]
      simp only [List.map_cons, parseLines, if_neg hline_ne, if_neg hhead, hsplit, haset]
      have hnd' : ((acc ++ [(k, v)]).map Prod.fst ++ m'.map Prod.fst).Nodup := by
        rw [List.map_append]
        simpa [List.append_assoc] using hnd
      rw [ih (acc ++ [(k, v)]) (n + 1) hnd' (fun q hq => hvk q (List.mem_cons_of_mem _ hq))]
      simp

/-- Round-trip of the codec on every valid map. -/
theorem parse_format_id (m : EnvMap) (hm : ValidEnvMap m) :
    ParseEnv (FormatEnv m) = .ok m := by
  obtain ⟨hnd, hvalid⟩ := hm
  by_cases hnil : m = []
  · subst hnil; rfl
  · unfold ParseEnv FormatEnv
    rw [if_neg hnil]
    have hlines : ∀ l ∈ m.map fmtLine, 10 ∉ l := by
      intro l hl
      obtain ⟨p, hp, rfl⟩ := List.mem_map.mp hl
      exact fmtLine_no_newline (hvalid p hp).1
    have hne : m.map fmtLine ≠ [] := by
      simpa using hnil
    rw [List.splitOn_intercalate (m.map fmtLine) 10 hlines hne]
    have := parseLines_fmt m [] 1 (by simpa using hnd) (fun p hp => (hvalid p hp).1)
    simpa using this

/-- C6: for every environment map satisfying the §3 invariants (valid
variable names, valid value bytes, unique keys), parsing the
serialisation yields the map back, including for values containing
whitespace, quotes or backslashes. -/
theorem ParseEnv_FormatEnv (m : EnvMap) (hm : ValidEnvMap m) :
    ParseEnv (FormatEnv m) = .ok m :=
  parse_format_id m hm

/-- Witness for C6 at a concrete map whose first value holds a space, a
double quote, a backslash and a newline. -/
theorem ParseEnv_FormatEnv_witness :
    ValidEnvMap envW6 ∧ ParseEnv (FormatEnv envW6) = .ok envW6 :=
  ⟨by constructor <;> decide, ParseEnv_FormatEnv envW6 (by constructor <;> decide)⟩

/-! ## C8: reading a missing file -/

/-- C8: reading a configured file whose ciphertext does not exist on disk
yields the empty variable map and the no-op cleanup, with no error. -/
theorem getAllEnvVars_missing_file (parseOk : String → Bool) (identity : Identity)
    (cfg : Config) (fileName filePath : String) (fs : Fs)
    (hpath : cfg.GetEnvFile fileName = .ok filePath)
    (hmiss : alook fs filePath = none) :
    GetAllEnvVars parseOk identity cfg fileName fs = .ok ([], .noop) := by
  unfold GetAllEnvVars
  rw [hpath]
  simp [FileExists, hmiss]

/-- Witness for C8: the default file of `cfgC1` is configured as
`env.enc`, which is absent from `fsC4`. -/
theorem getAllEnvVars_missing_file_witness :
    cfgC1.GetEnvFile "default" = .ok "env.enc" ∧
    alook fsC4 "env.enc" = none ∧
    GetAllEnvVars parseOkAll idA cfgC1 "default" fsC4 = .ok ([], .noop) :=
  ⟨rfl, rfl,
    getAllEnvVars_missing_file parseOkAll idA cfgC1 "default" "env.enc" fsC4 rfl rfl⟩

/-! ## C9: saving an empty map -/

/-- C9: saving an empty variable map always fails — the serialised empty
map is empty bytes and the envelope refuses to encrypt empty data — and
the filesystem is left unchanged, so a zero-variable environment file can
never be persisted. -/
theorem saveAllEnvVars_empty_map_errors (parseOk : String → Bool) (o : FsOracle)
    (identity : Identity) (cfg : Config) (fileName : String) (fs : Fs) :
    (SaveAllEnvVars parseOk o identity cfg fileName [] fs).1.isOk = false ∧
    (SaveAllEnvVars parseOk o identity cfg fileName [] fs).2 = fs := by
  unfold SaveAllEnvVars
  cases hp : cfg.GetEnvFile fileName with
  | error e => simp [Except.isOk, Except.toBool]
  | ok filePath =>
      cases hr : cfg.ResolveFileAccess fileName with
      | error e => simp [Except.isOk, Except.toBool]
      | ok recipientKeys =>
          cases hpr : ParseRecipients parseOk recipientKeys with
          | error e => simp [hpr, Except.isOk, Except.toBool]
          | ok recipients =>
              by_cases hrec : recipients = [] <;>
                simp [hpr, AgeManager.Encrypt, FormatEnv, hrec, Except.isOk, Except.toBool]

/-! ## C10: failing writes leave the target file unchanged -/

theorem alook_aerase_ne {α β : Type} [DecidableEq α] (m : List (α × β)) (k k' : α)
    (h : k' ≠ k) : alook (aerase m k) k' = alook m k' := by
  induction m with
  | nil => rfl
  | cons p rest ih =>
      obtain ⟨k₀, v₀⟩ := p
      by_cases hk : k = k₀
      · subst hk; simp [aerase, alook, h]
      · by_cases hk' : k' = k₀ <;> simp [aerase, alook, hk, hk', ih]

/-- The tempfile `os.CreateTemp` creates next to the target never shares
the target's name. -/
theorem temp_ne_target (p s : String) : ¬ (p ++ ".tmp." ++ s = p) := by
  intro h
  have hlen := congrArg String.length h
  rw [String.length_append, String.length_append] at hlen
  have h5 : (".tmp." : String).length = 5 := rfl
  omega

/-- A failing `WriteFile` leaves the target file's content unchanged:
every error is returned before the rename, and only the sibling tempfile
is ever touched. -/
theorem writeFile_error_target_unchanged (o : FsOracle) (filename : String)
    (data : Blob) (fs : Fs) (e : String) (fs' : Fs)
    (h : WriteFile o filename data fs = (.error e, fs')) :
    alook fs' filename = alook fs filename := by
  have hne : filename ≠ filename ++ ".tmp." ++ o.tempSuffix :=
    fun hh => temp_ne_target _ _ hh.symm
  unfold WriteFile at h
  by_cases o1 : o.mkdirOk
  swap
  · simp only [o1, not_false_eq_true, if_pos] at h
    injection h with h₁ h₂
    rw [h₂]
  by_cases o2 : o.createOk
  swap
  · simp only [o1, o2, not_true_eq_false, if_neg, not_false_eq_true, if_pos,
      not_false_iff] at h
    injection h with h₁ h₂
    rw [h₂]
  by_cases o3 : o.chmodOk
  swap
  · simp only [o1, o2, o3] at h
    simp at h
    obtain ⟨h₁, h₂⟩ := h
    rw [← h₂, alook_aerase_ne _ _ _ hne, alook_aset_ne _ _ _ _ hne]
  by_cases o4 : o.writeOk
  swap
  · simp only [o1, o2, o3, o4] at h
    simp at h
    obtain ⟨h₁, h₂⟩ := h
    rw [← h₂, alook_aerase_ne _ _ _ hne, alook_aset_ne _ _ _ _ hne]
  by_cases o5 : o.closeOk
  swap
  · simp only [o1, o2, o3, o4, o5] at h
    simp at h
    obtain ⟨h₁, h₂⟩ := h
    rw [← h₂, alook_aerase_ne _ _ _ hne, alook_aset_ne _ _ _ _ hne,
      alook_aset_ne _ _ _ _ hne]
  by_cases o6 : o.renameOk
  · simp [o1, o2, o3, o4, o5, o6] at h
  · simp only [o1, o2, o3, o4, o5, o6] at h
    simp at h
    obtain ⟨h₁, h₂⟩ := h
    rw [← h₂, alook_aerase_ne _ _ _ hne, alook_aset_ne _ _ _ _ hne,
      alook_aset_ne _ _ _ _ hne]

/-- C10: every invocation of SetEnvVar that returns an error leaves the
bytes of the on-disk target file unchanged: the write path only replaces
the target via a fully written sibling tempfile renamed into place, and
every error is returned before that rename. -/
theorem setEnvVar_error_target_unchanged (parseOk : String → Bool) (o : FsOracle)
    (identity : Identity) (cfg : Config) (fileName filePath : String)
    (key value : Bytes) (fs fs' : Fs) (e : KErr)
    (hpath : cfg.GetEnvFile fileName = .ok filePath)
    (h : SetEnvVar parseOk o identity cfg fileName key value fs = (.error e, fs')) :
    alook fs' filePath = alook fs filePath := by
  unfold SetEnvVar at h
  cases hg : GetAllEnvVars parseOk identity cfg fileName fs with
  | error e₀ =>
      simp only [hg] at h
      injection h with h₁ h₂
      rw [h₂]
  | ok p =>
      obtain ⟨vars, cl⟩ := p
      simp only [hg] at h
      unfold SaveAllEnvVars at h
      simp only [hpath] at h
      cases hr : cfg.ResolveFileAccess fileName with
      | error e₁ =>
          simp only [hr] at h
          injection h with h₁ h₂
          rw [h₂]
      | ok recipientKeys =>
          simp only [hr] at h
          cases hpr : ParseRecipients parseOk recipientKeys with
          | error e₂ =>
              simp only [hpr] at h
              injection h with h₁ h₂
              rw [h₂]
          | ok recipients =>
              simp only [hpr] at h
              cases henc : (AgeManager.mk recipients [identity.publicKey]).Encrypt
                  (FormatEnv (aset vars key value)) with
              | error e₃ =>
                  simp only [henc] at h
                  injection h with h₁ h₂
                  rw [h₂]
              | ok blob =>
                  simp only [henc] at h
                  cases hw : WriteFile o filePath blob fs with
                  | mk r fs₂ =>
                      simp only [hw] at h
                      cases r with
                      | ok u => simp at h
                      | error e₄ =>
                          injection h with h₁ h₂
                          rw [← h₂]
                          exact writeFile_error_target_unchanged o filePath blob fs e₄ fs₂ hw

/-- Witness for C10: with an oracle whose rename fails, a SetEnvVar on the
missing default file errors and the target path's content is unchanged. -/
theorem setEnvVar_error_target_unchanged_witness :
    cfgC1.GetEnvFile "default" = .ok "env.enc" ∧
    (SetEnvVar parseOkAll oracleRenameFail idA cfgC1 "default" [65] [49] fsC4).1
      = .error (.plain "rename") ∧
    alook (SetEnvVar parseOkAll oracleRenameFail idA cfgC1 "default" [65] [49] fsC4).2
        "env.enc"
      = alook fsC4 "env.enc" :=
  ⟨rfl, rfl,
    setEnvVar_error_target_unchanged parseOkAll oracleRenameFail idA cfgC1 "default"
      "env.enc" [65] [49] fsC4
      (SetEnvVar parseOkAll oracleRenameFail idA cfgC1 "default" [65] [49] fsC4).2
      (.plain "rename") rfl rfl⟩

/-! ## C5: set-then-get and its frame -/

/-- A successful `ParseRecipients` never returns an empty list. -/
theorem parseRecipients_ok_ne_nil {parseOk : String → Bool} {keys recips : List String}
    (h : ParseRecipients parseOk keys = .ok recips) : recips ≠ [] := by
  unfold ParseRecipients at h
  by_cases hk : keys = []
  · simp [hk] at h
  · simp only [if_neg hk] at h
    cases hl : parseRecipientsLoop parseOk keys with
    | error e => rw [hl] at h; cases h
    | ok r =>
        rw [hl] at h
        by_cases hr : r = []
        · simp [hr] at h
        · simp only [if_neg hr] at h
          injection h with h'
          rw [← h']
          exact hr

theorem mem_aset {α β : Type} [DecidableEq α] {m : List (α × β)} {k : α} {v : β}
    {p : α × β} (h : p ∈ aset m k v) : p ∈ m ∨ p = (k, v) := by
  induction m with
  | nil =>
      right
      simpa [aset] using h
  | cons q rest ih =>
      obtain ⟨k', v'⟩ := q
      by_cases hk : k = k'
      · subst hk
        rw [show aset ((k, v') :: rest) k v = (k, v) :: rest by simp [aset]] at h
        rcases List.mem_cons.mp h with h | h
        · right; exact h
        · left; exact List.mem_cons_of_mem _ h
      · rw [show aset ((k', v') :: rest) k v = (k', v') :: aset rest k v by
          simp [aset, hk]] at h
        rcases List.mem_cons.mp h with h | h
        · left; rw [h]; exact List.mem_cons_self _ _
        · rcases ih h with h' | h'
          · left; exact List.mem_cons_of_mem _ h'
          · right; exact h'

theorem aset_map_fst_mem {α β : Type} [DecidableEq α] (m : List (α × β)) (k : α) (v : β)
    (h : k ∈ m.map Prod.fst) : (aset m k v).map Prod.fst = m.map Prod.fst := by
  induction m with
  | nil => simp at h
  | cons q rest ih =>
      obtain ⟨k', v'⟩ := q
      by_cases hk : k = k'
      · subst hk; simp [aset]
      · simp only [List.map_cons, List.mem_cons] at h
        rcases h with h | h
        · exact absurd h hk
        · simp [aset, hk, ih h]

theorem aset_map_fst_not_mem {α β : Type} [DecidableEq α] (m : List (α × β)) (k : α)
    (v : β) (h : k ∉ m.map Prod.fst) :
    (aset m k v).map Prod.fst = m.map Prod.fst ++ [k] := by
  rw [aset_eq_append m k v (alook_eq_none h)]
  simp

/-- Inserting a valid key/value pair preserves the §3 map invariants. -/
theorem validEnvMap_aset {m : EnvMap} {k v : Bytes} (hm : ValidEnvMap m)
    (hk : validKey k = true) (hv : validValue v = true) :
    ValidEnvMap (aset m k v) := by
  obtain ⟨hnd, hpairs⟩ := hm
  constructor
  · by_cases hmem : k ∈ m.map Prod.fst
    · rw [aset_map_fst_mem _ _ _ hmem]; exact hnd
    · rw [aset_map_fst_not_mem _ _ _ hmem]
      simp [List.nodup_append, hnd, hmem]
  · intro p hp
    rcases mem_aset hp with h | rfl
    · exact hpairs p h
    · exact ⟨hk, hv⟩

/-- C5: when SetEnvVar succeeds, a subsequent GetEnvVar of the key
returns exactly the written value, and GetEnvVar of every other key
returns exactly what it returned before the write. -/
theorem setEnvVar_then_get (parseOk : String → Bool) (o : FsOracle)
    (identity : Identity) (cfg : Config) (fileName filePath : String)
    (key value : Bytes) (fs fs' : Fs) (m₀ : EnvMap) (cl : Cleanup)
    (recipientKeys recipients : List String)
    (hpath : cfg.GetEnvFile fileName = .ok filePath)
    (hget : GetAllEnvVars parseOk identity cfg fileName fs = .ok (m₀, cl))
    (hvalid : ValidEnvMap m₀)
    (hkey : validKey key = true)
    (hval : validValue value = true)
    (hkeys : cfg.ResolveFileAccess fileName = .ok recipientKeys)
    (hrecips : ParseRecipients parseOk recipientKeys = .ok recipients)
    (hid : identity.publicKey ∈ recipients)
    (hset : SetEnvVar parseOk o identity cfg fileName key value fs = (.ok (), fs')) :
    GetEnvVar parseOk identity cfg fileName key fs' = .ok value ∧
    ∀ key', key' ≠ key →
      GetEnvVar parseOk identity cfg fileName key' fs' =
        GetEnvVar parseOk identity cfg fileName key' fs := by
  have hm₁valid : ValidEnvMap (aset m₀ key value) := validEnvMap_aset hvalid hkey hval
  have hrecne : recipients ≠ [] := parseRecipients_ok_ne_nil hrecips
  unfold SetEnvVar at hset
  simp only [hget] at hset
  unfold SaveAllEnvVars at hset
  simp only [hpath, hkeys, hrecips] at hset
  cases henc : (AgeManager.mk recipients [identity.publicKey]).Encrypt
      (FormatEnv (aset m₀ key value)) with
  | error e =>
      simp only [henc] at hset
      cases hset
  | ok blob =>
      simp only [henc] at hset
      have hblob : blob = .cipher recipients (FormatEnv (aset m₀ key value)) := by
        unfold AgeManager.Encrypt at henc
        rw [if_neg hrecne] at henc
        by_cases hc : FormatEnv (aset m₀ key value) = []
        · rw [if_pos hc] at henc; cases henc
        · rw [if_neg hc] at henc
          injection henc with h'
          exact h'.symm
      cases hw : WriteFile o filePath blob fs with
      | mk r fs₂ =>
          simp only [hw] at hset
          cases r with
          | error e₂ => simp at hset
          | ok u =>
              injection hset with h₁ h₂
              have hne : filePath ≠ filePath ++ ".tmp." ++ o.tempSuffix :=
                fun hh => temp_ne_target _ _ hh.symm
              have hfs₂ : alook fs₂ filePath = some blob := by
                unfold WriteFile at hw
                by_cases o1 : o.mkdirOk
                swap; · simp [o1] at hw
                by_cases o2 : o.createOk
                swap; · simp [o1, o2] at hw
                by_cases o3 : o.chmodOk
                swap; · simp [o1, o2, o3] at hw
                by_cases o4 : o.writeOk
                swap; · simp [o1, o2, o3, o4] at hw
                by_cases o5 : o.closeOk
                swap; · simp [o1, o2, o3, o4, o5] at hw
                by_cases o6 : o.renameOk
                swap; · simp [o1, o2, o3, o4, o5, o6] at hw
                simp only [o1, o2, o3, o4, o5, o6] at hw
                simp at hw
                rw [← hw, alook_aset]
              have hlook : alook fs' filePath = some blob := by
                rw [← h₂]; exact hfs₂
              have hga' : GetAllEnvVars parseOk identity cfg fileName fs'
                  = .ok (aset m₀ key value,
                      .wipe (FormatEnv (aset m₀ key value)) (aset m₀ key value)) := by
                unfold GetAllEnvVars
                have hfe : FileExists fs' filePath = true := by
                  simp [FileExists, hlook]
                have hrd : ReadFile fs' filePath = .ok blob := by
                  unfold ReadFile
                  rw [hlook]
                have hdec : (AgeManager.mk recipients [identity.publicKey]).Decrypt blob
                    = .ok (FormatEnv (aset m₀ key value)) := by
                  rw [hblob]
                  unfold AgeManager.Decrypt
                  have hcont : recipients.contains identity.publicKey = true :=
                    List.elem_eq_true_of_mem hid
                  simp [hcont, hid]
                simp only [hpath, hfe, Bool.not_true, if_neg, hkeys, hrecips, hrd, hdec,
                  parse_format_id _ hm₁valid]
                simp
              constructor
              · unfold GetEnvVar
                simp only [hga', alook_aset]
              · intro key' hk'
                unfold GetEnvVar
                simp only [hga', hget, alook_aset_ne _ _ _ _ hk']

/-- Witness for C5 at a concrete state: setting `A=1` on the missing
default file, then reading `A` back yields `1`, and reading `B` is
unchanged. -/
theorem setEnvVar_then_get_witness :
    cfgC1.GetEnvFile "default" = .ok "env.enc" ∧
    GetAllEnvVars parseOkAll idA cfgC1 "default" fsC4 = .ok ([], .noop) ∧
    GetEnvVar parseOkAll idA cfgC1 "default" [65]
      (SetEnvVar parseOkAll oracleOK idA cfgC1 "default" [65] [49] fsC4).2 = .ok [49] ∧
    GetEnvVar parseOkAll idA cfgC1 "default" [66]
      (SetEnvVar parseOkAll oracleOK idA cfgC1 "default" [65] [49] fsC4).2
      = GetEnvVar parseOkAll idA cfgC1 "default" [66] fsC4 := by
  have h := setEnvVar_then_get parseOkAll oracleOK idA cfgC1 "default" "env.enc"
    [65] [49] fsC4
    (SetEnvVar parseOkAll oracleOK idA cfgC1 "default" [65] [49] fsC4).2
    [] .noop ["KA"] ["KA"]
    rfl rfl ⟨by simp, by simp⟩ (by decide) (by decide) rfl rfl (by decide) rfl
  exact ⟨rfl, rfl, h.1, h.2 [66] (by decide)⟩

/-! ## C4: rekey with a missing ciphertext never persists the config -/

/-- C4 counterexample: a rekey whose target ciphertext does not exist
returns success without performing any filesystem write — the updated
config containing the new recipient bob is never persisted (`rekeyFile`
returns before `cfg.Save` when `FileExists` is false). -/
theorem rekey_missing_file_config_not_persisted :
    RekeyRun parseOkAll oracleOK idA cfgC1 "kiln.toml" "default" [("bob", "KB")] fsC4
      = (.ok (), fsC4) ∧
    alook fsC4 "kiln.toml" = some (.configData cfgC1) ∧
    alook cfgC1.recipients "bob" = none :=
  ⟨rfl, rfl, rfl⟩

/-! ## C1: rekey writes the config before the ciphertext -/

/-- C1 counterexample: a rekey of an existing ciphertext first saves the
config and only then re-encrypts: the run factors through the
intermediate filesystem state `fsC1mid`, in which the saved config
already grants bob access (`ResolveFileAccess` includes `KB`) while the
on-disk ciphertext is still the old one, which bob's identity cannot
decrypt.  The whole run nevertheless succeeds. -/
theorem rekey_config_saved_before_ciphertext :
    RekeyRun parseOkAll oracleOK idA cfgC1 "kiln.toml" "default" [("bob", "KB")] fsC1
      = SaveAllEnvVars parseOkAll oracleOK idA cfgC1' "default" envOne fsC1mid ∧
    alook fsC1mid "kiln.toml" = some (.configData cfgC1') ∧
    cfgC1'.ResolveFileAccess "default" = .ok ["KA", "KB"] ∧
    alook fsC1mid "env.enc" = some (.cipher ["KA"] ptC1) ∧
    (AgeManager.mk ["KA", "KB"] ["KB"]).Decrypt (.cipher ["KA"] ptC1)
      = .error "decrypt: no identity matched" ∧
    (RekeyRun parseOkAll oracleOK idA cfgC1 "kiln.toml" "default" [("bob", "KB")] fsC1).1
      = .ok () :=
  ⟨rfl, rfl, rfl, rfl, rfl, rfl⟩

end Kiln
